import Mathlib

/-!
Verification of the streaming and single-shot replacement core of the
`lazy-string-replace` crate (`src/lib.rs`), as a shallow embedding.

Text is modelled as `List Char` (chunks pushed through `fmt::Write::write_str`
are `&str` values, so they always split at character boundaries).  The
underlying writer (the sink wrapped by `ReplaceWriter`) is modelled by the
list of chunks it has received so far, together with a fault model
`fail : List (List Char) → List Char → Option ε` saying whether (and with
which error) the sink rejects the next chunk given what it has already
received; `fail` returning `none` everywhere models an infallible sink.
The `?` operator on `fmt::Result` propagates the sink's error value
unchanged, which the embedding mirrors by threading `Option ε`.
-/

/-- State of a `ReplaceWriter` (src/lib.rs lines 54-60): the chunks already
written to the underlying writer, the `needle_pos` field, and the carry
`buffer`. The borrowed `needle` and the `replacement` are passed as
parameters since they never change. -/
structure WState where
  log : List (List Char)
  needle_pos : Nat
  buffer : List Char
deriving DecidableEq, Repr

/-- One write to the underlying sink: either the fault model rejects the
chunk (the sink receives nothing and an error is reported), or the chunk is
appended to the received log. -/
def writeS {ε : Type} (fail : List (List Char) → List Char → Option ε)
    (log : List (List Char)) (s : List Char) : List (List Char) × Option ε :=
  match fail log s with
  | some e => (log, some e)
  | none => (log ++ [s], none)

/-- The infallible sink: never rejects a chunk. -/
def noFail (ε : Type) : List (List Char) → List Char → Option ε := fun _ _ => none

/-- `ReplaceWriter::new` (src/lib.rs lines 68-76): `needle_pos: 0`, empty
buffer, over a fresh underlying writer. -/
def initWriter : WState := ⟨[], 0, []⟩

/-- The shared mismatch branch of `ReplaceWriter::write_str`
(src/lib.rs lines 93-97 and 103-107): `self.needle_pos = 0;
self.writer.write_str(&self.buffer)?; self.buffer.clear();
self.writer.write_str(s)`.  If the first sink write fails, the `?` aborts
before the buffer is cleared. -/
def flushForward {ε : Type} (fail : List (List Char) → List Char → Option ε)
    (st : WState) (s : List Char) : WState × Option ε :=
  match writeS fail st.log st.buffer with
  | (log1, some e) => ({ st with log := log1, needle_pos := 0 }, some e)
  | (log1, none) =>
    match writeS fail log1 s with
    | (log2, oe) => (⟨log2, 0, []⟩, oe)

/-- `ReplaceWriter::write_str` (src/lib.rs lines 84-110).  `needle` and
`repl` are the writer's needle and (rendered) replacement; the replacement's
`Display` output is modelled as a single chunk. -/
def write_str {ε : Type} (fail : List (List Char) → List Char → Option ε)
    (needle repl : List Char) (st : WState) (s : List Char) : WState × Option ε :=
  let nd := needle.drop st.needle_pos
  if s.length < nd.length then
    if (nd.take s.length).isPrefixOf s then
      ({ st with needle_pos := st.needle_pos + s.length, buffer := st.buffer ++ s }, none)
    else
      flushForward fail st s
  else
    if nd.isPrefixOf s then
      match writeS fail st.log repl with
      | (log1, oe) => ({ st with log := log1, buffer := [] }, oe)
    else
      flushForward fail st s

/-- Pushing a sequence of chunks through a `ReplaceWriter`, aborting on the
first error, as the haystack's `Display` implementation does in
`ReplaceDisplay::fmt` (src/lib.rs lines 46-50). -/
def writeChunks {ε : Type} (fail : List (List Char) → List Char → Option ε)
    (needle repl : List Char) (st : WState) : List (List Char) → WState × Option ε
  | [] => (st, none)
  | c :: rest =>
    match write_str fail needle repl st c with
    | (st1, some e) => (st1, some e)
    | (st1, none) => writeChunks fail needle repl st1 rest

/-- `ReplaceDisplay::fmt` (src/lib.rs lines 46-50): wrap the formatter in a
fresh `ReplaceWriter` and let the haystack's `Display` write its chunks into
it. The haystack's rendering is modelled by its chunk sequence. -/
def replaceDisplayFmt {ε : Type} (fail : List (List Char) → List Char → Option ε)
    (needle repl : List Char) (chunks : List (List Char)) : WState × Option ε :=
  writeChunks fail needle repl initWriter chunks

/-- The flattened text an infallible sink has received after streaming
`chunks` through a fresh `ReplaceWriter` (carried bytes still sitting in the
buffer are not part of it). -/
def streamOut (needle repl : List Char) (chunks : List (List Char)) : List Char :=
  (replaceDisplayFmt (noFail Unit) needle repl chunks).1.log.flatten

/-- One step of the `pattern::Searcher` protocol; `Done` is represented by
the end of the step list. -/
inductive SearchStep where
  | Match : Nat → Nat → SearchStep
  | Reject : Nat → Nat → SearchStep
deriving DecidableEq, Repr

/-- `&haystack[a..b]` for byte (character) indices. -/
def sliceAt (l : List Char) (a b : Nat) : List Char := (l.drop a).take (b - a)

/-- Modelled from the spec: the repository declares `pub mod pattern`
(src/lib.rs line 16) but `src/pattern.rs` is not among the sources.  Per the
spec's search contract, a literal-needle searcher produces a lazy finite
sequence of `Match`/`Reject` steps covering the haystack left to right with
no overlap and no gaps, matching non-overlapping occurrences of the needle
leftmost-first, with `Reject` spans maximal.  `stepsAux needle r pos rejStart
skip` scans the remaining text `r` whose head sits at absolute position
`pos`; `rejStart` is the start of the pending reject span and `skip` the
number of characters of an already-emitted match still to be consumed. -/
def stepsAux (needle : List Char) : List Char → Nat → Nat → Nat → List SearchStep
  | [], pos, rejStart, _ => if rejStart = pos then [] else [SearchStep.Reject rejStart pos]
  | _ :: rest, pos, rejStart, Nat.succ k => stepsAux needle rest (pos + 1) rejStart k
  | c :: rest, pos, rejStart, 0 =>
    if needle ≠ [] ∧ needle.isPrefixOf (c :: rest) then
      (if rejStart = pos then [] else [SearchStep.Reject rejStart pos])
        ++ SearchStep.Match pos (pos + needle.length)
          :: stepsAux needle rest (pos + 1) (pos + needle.length) (needle.length - 1)
    else
      stepsAux needle rest (pos + 1) rejStart 0

/-- Modelled from the spec: the full step sequence the literal searcher
yields for `hay` (see `stepsAux`). -/
def searchSteps (needle hay : List Char) : List SearchStep :=
  stepsAux needle hay 0 0 0

/-- The loop of `impl Display for ReplacedString` (src/lib.rs lines 182-194):
repeatedly take the next search step; on `Match` write the replacement, on
`Reject start end` write `&haystack[start..end]`, stop at `Done`; any sink
error aborts via `?`. -/
def replacedFmt {ε : Type} (fail : List (List Char) → List Char → Option ε)
    (hay repl : List Char) : List SearchStep → List (List Char) → List (List Char) × Option ε
  | [], log => (log, none)
  | SearchStep.Match _ _ :: rest, log =>
    match writeS fail log repl with
    | (log1, some e) => (log1, some e)
    | (log1, none) => replacedFmt fail hay repl rest log1
  | SearchStep.Reject a b :: rest, log =>
    match writeS fail log (sliceAt hay a b) with
    | (log1, some e) => (log1, some e)
    | (log1, none) => replacedFmt fail hay repl rest log1

/-- The text produced by rendering `ReplacedString { haystack, needle,
replacement }` into an infallible sink. -/
def singleShotOut (hay needle repl : List Char) : List Char :=
  ((replacedFmt (noFail Unit) hay repl (searchSteps needle hay) []).1).flatten

/-- The chunk a single search step contributes to the sink. -/
def stepChunk (hay repl : List Char) : SearchStep → List Char
  | SearchStep.Match _ _ => repl
  | SearchStep.Reject a b => sliceAt hay a b

/-- Written from the spec's words (section 4.2) for comparison with the
code's loop: "on `Reject`, forward that literal span to the sink; on
`Match`, render the replacement to the sink; on `Done`, terminate". -/
def renderSteps (hay repl : List Char) : List SearchStep → List Char
  | [] => []
  | SearchStep.Match _ _ :: rest => repl ++ renderSteps hay repl rest
  | SearchStep.Reject a b :: rest => sliceAt hay a b ++ renderSteps hay repl rest

/-- The spec's search contract (section 6): the steps partition
`[pos, len)` left to right with no overlap and no gaps. -/
def validChain (len : Nat) : Nat → List SearchStep → Bool
  | pos, [] => pos == len
  | pos, SearchStep.Match a b :: rest => (a == pos) && Nat.ble pos b && validChain len b rest
  | pos, SearchStep.Reject a b :: rest => (a == pos) && Nat.ble pos b && validChain len b rest

/-- Prepend already-received chunks to a writer state's log. -/
def withLog (L : List (List Char)) (st : WState) : WState :=
  ⟨L ++ st.log, st.needle_pos, st.buffer⟩

/-! ### Basic facts about the sink model and `write_str` branches -/

theorem writeS_noFail {ε : Type} (log : List (List Char)) (s : List Char) :
    writeS (noFail ε) log s = (log ++ [s], none) := rfl

theorem writeS_err {ε : Type} {fail : List (List Char) → List Char → Option ε}
    {log : List (List Char)} {s : List Char} {e : ε}
    (h : (writeS fail log s).2 = some e) : fail log s = some e := by
  unfold writeS at h
  cases hf : fail log s <;> rw [hf] at h <;> simp_all

theorem writeS_log {ε : Type} (fail : List (List Char) → List Char → Option ε)
    (log : List (List Char)) (s : List Char) :
    ∃ t, (writeS fail log s).1 = log ++ t := by
  unfold writeS
  cases hf : fail log s
  · exact ⟨[s], rfl⟩
  · exact ⟨[], by simp⟩

theorem isPrefixOf_self (l : List Char) : l.isPrefixOf l = true := by
  simp

theorem isPrefixOf_append_self (l t : List Char) : l.isPrefixOf (l ++ t) = true := by
  simp

theorem isPrefixOf_nil_right {n : List Char} (h : n ≠ []) : n.isPrefixOf [] = false := by
  cases n with
  | nil => exact absurd rfl h
  | cons c cs => rfl

theorem flushForward_noFail {ε : Type} (st : WState) (s : List Char) :
    flushForward (noFail ε) st s = (⟨st.log ++ [st.buffer, s], 0, []⟩, none) := by
  simp [flushForward, writeS, noFail]

theorem write_str_caseA_match {ε : Type} (fail : List (List Char) → List Char → Option ε)
    (needle repl : List Char) (st : WState) (s : List Char)
    (h1 : s.length < (needle.drop st.needle_pos).length)
    (h2 : ((needle.drop st.needle_pos).take s.length).isPrefixOf s = true) :
    write_str fail needle repl st s =
      ({ st with needle_pos := st.needle_pos + s.length, buffer := st.buffer ++ s }, none) := by
  simp only [write_str]
  rw [if_pos h1, if_pos h2]

theorem write_str_caseA_miss {ε : Type} (fail : List (List Char) → List Char → Option ε)
    (needle repl : List Char) (st : WState) (s : List Char)
    (h1 : s.length < (needle.drop st.needle_pos).length)
    (h2 : ¬ ((needle.drop st.needle_pos).take s.length).isPrefixOf s = true) :
    write_str fail needle repl st s = flushForward fail st s := by
  simp only [write_str]
  rw [if_pos h1, if_neg h2]

theorem write_str_caseB_match {ε : Type} (fail : List (List Char) → List Char → Option ε)
    (needle repl : List Char) (st : WState) (s : List Char)
    (h1 : ¬ s.length < (needle.drop st.needle_pos).length)
    (h2 : (needle.drop st.needle_pos).isPrefixOf s = true) :
    write_str fail needle repl st s =
      ({ st with log := (writeS fail st.log repl).1, buffer := [] },
        (writeS fail st.log repl).2) := by
  simp only [write_str]
  rw [if_neg h1, if_pos h2]

theorem write_str_caseB_miss {ε : Type} (fail : List (List Char) → List Char → Option ε)
    (needle repl : List Char) (st : WState) (s : List Char)
    (h1 : ¬ s.length < (needle.drop st.needle_pos).length)
    (h2 : ¬ (needle.drop st.needle_pos).isPrefixOf s = true) :
    write_str fail needle repl st s = flushForward fail st s := by
  simp only [write_str]
  rw [if_neg h1, if_neg h2]

theorem write_str_noFail_ok {ε : Type} (needle repl : List Char) (st : WState) (s : List Char) :
    (write_str (noFail ε) needle repl st s).2 = none := by
  by_cases h1 : s.length < (needle.drop st.needle_pos).length
  · by_cases h2 : ((needle.drop st.needle_pos).take s.length).isPrefixOf s = true
    · rw [write_str_caseA_match (noFail ε) needle repl st s h1 h2]
    · rw [write_str_caseA_miss (noFail ε) needle repl st s h1 h2, flushForward_noFail]
  · by_cases h2 : (needle.drop st.needle_pos).isPrefixOf s = true
    · rw [write_str_caseB_match (noFail ε) needle repl st s h1 h2, writeS_noFail]
    · rw [write_str_caseB_miss (noFail ε) needle repl st s h1 h2, flushForward_noFail]

/-! ### Locality of the infallible-sink filter in the already-written log -/

theorem write_str_withLog {ε : Type} (needle repl : List Char) (L : List (List Char))
    (st : WState) (s : List Char) :
    write_str (noFail ε) needle repl (withLog L st) s =
      (withLog L (write_str (noFail ε) needle repl st s).1,
        (write_str (noFail ε) needle repl st s).2) := by
  have hpos : (withLog L st).needle_pos = st.needle_pos := rfl
  by_cases h1 : s.length < (needle.drop st.needle_pos).length
  · by_cases h2 : ((needle.drop st.needle_pos).take s.length).isPrefixOf s = true
    · rw [write_str_caseA_match (noFail ε) needle repl st s h1 h2,
        write_str_caseA_match (noFail ε) needle repl (withLog L st) s (hpos ▸ h1) (hpos ▸ h2)]
      rfl
    · rw [write_str_caseA_miss (noFail ε) needle repl st s h1 h2,
        write_str_caseA_miss (noFail ε) needle repl (withLog L st) s (hpos ▸ h1) (hpos ▸ h2),
        flushForward_noFail, flushForward_noFail]
      simp [withLog]
  · by_cases h2 : (needle.drop st.needle_pos).isPrefixOf s = true
    · rw [write_str_caseB_match (noFail ε) needle repl st s h1 h2,
        write_str_caseB_match (noFail ε) needle repl (withLog L st) s (hpos ▸ h1) (hpos ▸ h2),
        writeS_noFail, writeS_noFail]
      simp [withLog]
    · rw [write_str_caseB_miss (noFail ε) needle repl st s h1 h2,
        write_str_caseB_miss (noFail ε) needle repl (withLog L st) s (hpos ▸ h1) (hpos ▸ h2),
        flushForward_noFail, flushForward_noFail]
      simp [withLog]

theorem writeChunks_noFail_ok {ε : Type} (needle repl : List Char) :
    ∀ (cs : List (List Char)) (st : WState),
      (writeChunks (noFail ε) needle repl st cs).2 = none := by
  intro cs
  induction cs with
  | nil => intro st; rfl
  | cons c rest ih =>
    intro st
    have h := write_str_noFail_ok (ε := ε) needle repl st c
    simp only [writeChunks]
    cases hw : write_str (noFail ε) needle repl st c with
    | mk st1 oe =>
      rw [hw] at h
      simp only at h
      subst h
      exact ih st1

theorem writeChunks_append_noFail {ε : Type} (needle repl : List Char) :
    ∀ (xs ys : List (List Char)) (st : WState),
      writeChunks (noFail ε) needle repl st (xs ++ ys) =
        writeChunks (noFail ε) needle repl (writeChunks (noFail ε) needle repl st xs).1 ys := by
  intro xs
  induction xs with
  | nil => intro ys st; rfl
  | cons c rest ih =>
    intro ys st
    have h := write_str_noFail_ok (ε := ε) needle repl st c
    simp only [List.cons_append, writeChunks]
    cases hw : write_str (noFail ε) needle repl st c with
    | mk st1 oe =>
      rw [hw] at h
      simp only at h
      subst h
      exact ih ys st1

theorem writeChunks_withLog {ε : Type} (needle repl : List Char) :
    ∀ (cs : List (List Char)) (L : List (List Char)) (st : WState),
      writeChunks (noFail ε) needle repl (withLog L st) cs =
        (withLog L (writeChunks (noFail ε) needle repl st cs).1,
          (writeChunks (noFail ε) needle repl st cs).2) := by
  intro cs
  induction cs with
  | nil => intro L st; rfl
  | cons c rest ih =>
    intro L st
    have h := write_str_noFail_ok (ε := ε) needle repl st c
    have hw := write_str_withLog (ε := ε) needle repl L st c
    simp only [writeChunks]
    cases hc : write_str (noFail ε) needle repl st c with
    | mk st1 oe =>
      rw [hc] at h hw
      simp only at h
      subst h
      rw [hw]
      exact ih L st1

/-! ### Characterizing the literal searcher's step sequence -/

theorem stepsAux_skip (needle : List Char) :
    ∀ (k : Nat) (r : List Char) (pos rejStart : Nat), k ≤ r.length →
      stepsAux needle r pos rejStart k = stepsAux needle (r.drop k) (pos + k) rejStart 0 := by
  intro k
  induction k with
  | zero => intro r pos rejStart _; rfl
  | succ k ih =>
    intro r pos rejStart hk
    cases r with
    | nil => simp at hk
    | cons c rest =>
      have hstep : stepsAux needle (c :: rest) pos rejStart (k + 1)
          = stepsAux needle rest (pos + 1) rejStart k := rfl
      rw [hstep, ih rest (pos + 1) rejStart (by simpa using hk), List.drop_succ_cons]
      have harith : pos + 1 + k = pos + (k + 1) := by omega
      rw [harith]

theorem stepsAux_scanStep (needle : List Char) (c : Char) (rest : List Char)
    (pos rejStart : Nat) (h0 : needle.isPrefixOf (c :: rest) = false) :
    stepsAux needle (c :: rest) pos rejStart 0 = stepsAux needle rest (pos + 1) rejStart 0 := by
  simp only [stepsAux]
  rw [if_neg]
  intro hcontra
  rw [hcontra.2] at h0
  exact Bool.noConfusion h0

theorem stepsAux_scanAppend (needle : List Char) :
    ∀ (r₁ t : List Char) (pos rejStart : Nat),
      (∀ i, i < r₁.length → needle.isPrefixOf ((r₁ ++ t).drop i) = false) →
      stepsAux needle (r₁ ++ t) pos rejStart 0 = stepsAux needle t (pos + r₁.length) rejStart 0 := by
  intro r₁
  induction r₁ with
  | nil => intro t pos rejStart _; simp
  | cons c rest ih =>
    intro t pos rejStart h
    have h0 : needle.isPrefixOf (c :: (rest ++ t)) = false := by
      simpa using h 0 (by simp)
    have hrec : ∀ i, i < rest.length → needle.isPrefixOf ((rest ++ t).drop i) = false := by
      intro i hi
      have := h (i + 1) (by simp; omega)
      simpa using this
    rw [List.cons_append, stepsAux_scanStep needle c (rest ++ t) pos rejStart h0,
      ih t (pos + 1) rejStart hrec]
    have harith : pos + 1 + rest.length = pos + (rest.length + 1) := by omega
    rw [harith]
    simp

theorem stepsAux_noMatchAll (needle : List Char) :
    ∀ (r : List Char) (pos rejStart : Nat),
      (∀ i, needle.isPrefixOf (r.drop i) = false) →
      stepsAux needle r pos rejStart 0 =
        if rejStart = pos + r.length then [] else [SearchStep.Reject rejStart (pos + r.length)] := by
  intro r
  induction r with
  | nil => intro pos rejStart _; simp [stepsAux]
  | cons c rest ih =>
    intro pos rejStart h
    have h0 : needle.isPrefixOf (c :: rest) = false := by simpa using h 0
    have hrec : ∀ i, needle.isPrefixOf (rest.drop i) = false := by
      intro i
      simpa using h (i + 1)
    rw [stepsAux_scanStep needle c rest pos rejStart h0, ih (pos + 1) rejStart hrec]
    have harith : pos + 1 + rest.length = pos + (rest.length + 1) := by omega
    rw [harith]
    simp

theorem stepsAux_matchAt (needle t : List Char) (pos rejStart : Nat) (hne : needle ≠ []) :
    stepsAux needle (needle ++ t) pos rejStart 0 =
      (if rejStart = pos then [] else [SearchStep.Reject rejStart pos])
        ++ SearchStep.Match pos (pos + needle.length)
          :: stepsAux needle t (pos + needle.length) (pos + needle.length) 0 := by
  cases needle with
  | nil => exact absurd rfl hne
  | cons c n' =>
    rw [List.cons_append]
    simp only [stepsAux]
    rw [if_pos]
    · have hskip : stepsAux (c :: n') (n' ++ t) (pos + 1) (pos + (c :: n').length) ((c :: n').length - 1)
          = stepsAux (c :: n') t (pos + (c :: n').length) (pos + (c :: n').length) 0 := by
        have hlen : (c :: n').length - 1 = n'.length := by simp
        rw [hlen, stepsAux_skip (c :: n') n'.length (n' ++ t) (pos + 1) (pos + (c :: n').length)
          (by simp), List.drop_left]
        have harith : pos + 1 + n'.length = pos + (c :: n').length := by simp; omega
        rw [harith]
      rw [hskip]
    · constructor
      · simp
      · rw [List.isPrefixOf_cons₂]
        simp [isPrefixOf_append_self]

/-! ### The single-shot rendering loop under an infallible sink -/

theorem replacedFmt_noFail {ε : Type} (hay repl : List Char) :
    ∀ (steps : List SearchStep) (log : List (List Char)),
      replacedFmt (noFail ε) hay repl steps log =
        (log ++ steps.map (stepChunk hay repl), none) := by
  intro steps
  induction steps with
  | nil => intro log; simp [replacedFmt]
  | cons step rest ih =>
    intro log
    cases step with
    | Match a b =>
      simp only [replacedFmt, writeS_noFail, ih, List.map_cons, stepChunk]
      simp
    | Reject a b =>
      simp only [replacedFmt, writeS_noFail, ih, List.map_cons, stepChunk]
      simp

theorem renderSteps_eq_flatten (hay repl : List Char) :
    ∀ steps : List SearchStep,
      renderSteps hay repl steps = (steps.map (stepChunk hay repl)).flatten := by
  intro steps
  induction steps with
  | nil => rfl
  | cons step rest ih =>
    cases step with
    | Match a b => simp [renderSteps, stepChunk, ih]
    | Reject a b => simp [renderSteps, stepChunk, ih]

theorem singleShotOut_eq_renderSteps (hay needle repl : List Char) :
    singleShotOut hay needle repl = renderSteps hay repl (searchSteps needle hay) := by
  rw [singleShotOut, replacedFmt_noFail, renderSteps_eq_flatten]
  simp

theorem renderSteps_append (hay repl : List Char) (a b : List SearchStep) :
    renderSteps hay repl (a ++ b) = renderSteps hay repl a ++ renderSteps hay repl b := by
  rw [renderSteps_eq_flatten, renderSteps_eq_flatten, renderSteps_eq_flatten]
  simp

/-- The single-shot render of a haystack containing the needle exactly once. -/
theorem singleShot_unique (needle repl pre post : List Char) (hne : needle ≠ [])
    (hu : ∀ i, needle.isPrefixOf ((pre ++ needle ++ post).drop i) = true → i = pre.length) :
    singleShotOut (pre ++ needle ++ post) needle repl = pre ++ repl ++ post := by
  have hpre : ∀ i, i < pre.length →
      needle.isPrefixOf ((pre ++ (needle ++ post)).drop i) = false := by
    intro i hi
    cases hb : needle.isPrefixOf ((pre ++ (needle ++ post)).drop i)
    · rfl
    · rw [← List.append_assoc] at hb
      have := hu i hb
      omega
  have hpost : ∀ i, needle.isPrefixOf (post.drop i) = false := by
    intro i
    cases hb : needle.isPrefixOf (post.drop i)
    · rfl
    · exfalso
      have hdrop : ((pre ++ needle ++ post).drop (pre.length + needle.length + i)) = post.drop i := by
        rw [List.append_assoc]
        rw [show pre.length + needle.length + i = pre.length + (needle.length + i) by omega]
        rw [← List.drop_drop, List.drop_left]
        rw [← List.drop_drop, List.drop_left]
      have := hu (pre.length + needle.length + i) (by rwa [hdrop])
      have hnl : 0 < needle.length := List.length_pos.mpr hne
      omega
  have hsteps : searchSteps needle (pre ++ needle ++ post) =
      (if 0 = pre.length then [] else [SearchStep.Reject 0 pre.length])
        ++ SearchStep.Match pre.length (pre.length + needle.length)
          :: (if pre.length + needle.length = pre.length + needle.length + post.length then []
              else [SearchStep.Reject (pre.length + needle.length)
                      (pre.length + needle.length + post.length)]) := by
    rw [searchSteps, List.append_assoc,
      stepsAux_scanAppend needle pre (needle ++ post) 0 0 hpre,
      stepsAux_matchAt needle post (0 + pre.length) 0 hne,
      stepsAux_noMatchAll needle post (0 + pre.length + needle.length)
        (0 + pre.length + needle.length) hpost]
    norm_num
  have hslice1 : sliceAt (pre ++ needle ++ post) 0 pre.length = pre := by
    rw [sliceAt, List.drop_zero, Nat.sub_zero, List.append_assoc, List.take_left]
  have hslice2 : sliceAt (pre ++ needle ++ post)
      (pre.length + needle.length) (pre.length + needle.length + post.length) = post := by
    rw [sliceAt]
    rw [show pre.length + needle.length + post.length - (pre.length + needle.length)
      = post.length by omega]
    have hd : (pre ++ needle ++ post).drop (pre.length + needle.length) = post :=
      List.drop_left' (by simp)
    rw [hd, List.take_length]
  rw [singleShotOut_eq_renderSteps, hsteps, renderSteps_append]
  by_cases hp : 0 = pre.length
  · have hpe : pre = [] := List.length_eq_zero.mp hp.symm
    by_cases hq : pre.length + needle.length = pre.length + needle.length + post.length
    · have hqe : post = [] := List.length_eq_zero.mp (by omega)
      rw [if_pos hp, if_pos hq]
      subst hpe hqe
      simp [renderSteps]
    · rw [if_pos hp, if_neg hq]
      simp only [renderSteps]
      rw [hslice2]
      simp [hpe]
  · by_cases hq : pre.length + needle.length = pre.length + needle.length + post.length
    · have hqe : post = [] := List.length_eq_zero.mp (by omega)
      rw [if_neg hp, if_pos hq]
      simp only [renderSteps]
      rw [hslice1]
      simp [hqe]
    · rw [if_neg hp, if_neg hq]
      simp only [renderSteps]
      rw [hslice1, hslice2]
      simp

theorem WState_eta (st : WState) : st = ⟨st.log, st.needle_pos, st.buffer⟩ := rfl

theorem writeChunks_needle_from_idle {ε : Type} (needle repl : List Char) (L : List (List Char)) :
    writeChunks (noFail ε) needle repl ⟨L, 0, []⟩ [needle] = (⟨L ++ [repl], 0, []⟩, none) := by
  have h1 : ¬ needle.length < ((needle.drop (⟨L, 0, []⟩ : WState).needle_pos)).length := by
    simp
  have h2 : (needle.drop (⟨L, 0, []⟩ : WState).needle_pos).isPrefixOf needle = true := by
    simp
  have hw := write_str_caseB_match (noFail ε) needle repl ⟨L, 0, []⟩ needle h1 h2
  rw [writeS_noFail] at hw
  simp only [writeChunks, hw]

/-- C4: a `write_str` call whose chunk is strictly shorter than the remaining
needle (Case A) either extends the partial match (offset grows by the chunk's
length, chunk appended to the carry buffer, nothing written to the sink) when
the chunk equals the matching-length prefix of the remaining needle, or else
resets the offset to 0, writes the carry buffer verbatim to the sink, clears
it, and then writes the chunk verbatim. -/
theorem claim4_case_a (needle repl s : List Char) (st : WState)
    (h : s.length < (needle.drop st.needle_pos).length) :
    (((needle.drop st.needle_pos).take s.length).isPrefixOf s = true →
      write_str (noFail Unit) needle repl st s =
        ({ st with needle_pos := st.needle_pos + s.length, buffer := st.buffer ++ s }, none)) ∧
    (¬ ((needle.drop st.needle_pos).take s.length).isPrefixOf s = true →
      write_str (noFail Unit) needle repl st s = (⟨st.log ++ [st.buffer, s], 0, []⟩, none)) := by
  constructor
  · intro h2
    exact write_str_caseA_match (noFail Unit) needle repl st s h h2
  · intro h2
    rw [write_str_caseA_miss (noFail Unit) needle repl st s h h2, flushForward_noFail]

/-- Witness for C4 at needle `"ab"`: the chunk `"a"` is a strict partial
continuation from the fresh state, the chunk `"x"` is a falsified candidate. -/
theorem claim4_case_a_witness :
    ((['a'] : List Char).length < ((['a','b'] : List Char).drop initWriter.needle_pos).length) ∧
    (((['a','b'] : List Char).drop initWriter.needle_pos).take (['a'] : List Char).length).isPrefixOf ['a'] = true ∧
    write_str (noFail Unit) ['a','b'] ['R'] initWriter ['a'] =
      ({ initWriter with
          needle_pos := initWriter.needle_pos + (['a'] : List Char).length,
          buffer := initWriter.buffer ++ ['a'] }, none) ∧
    write_str (noFail Unit) ['a','b'] ['R'] initWriter ['x'] =
      (⟨initWriter.log ++ [initWriter.buffer, ['x']], 0, []⟩, none) :=
  ⟨by decide, by decide,
    (claim4_case_a ['a','b'] ['R'] ['a'] initWriter (by decide)).1 (by decide),
    (claim4_case_a ['a','b'] ['R'] ['x'] initWriter (by decide)).2 (by decide)⟩

/-- C10: pushing the empty chunk into a `ReplaceWriter` whose remaining
needle portion is non-empty returns `Ok`, performs no write to the underlying
writer, and leaves the whole state (needle_pos, carry buffer, sink log)
unchanged, for an arbitrary sink fault model. -/
theorem claim10_empty_push (ε : Type) (fail : List (List Char) → List Char → Option ε)
    (needle repl : List Char) (st : WState) (h : st.needle_pos < needle.length) :
    write_str fail needle repl st [] = (st, none) := by
  have h1 : ([] : List Char).length < (needle.drop st.needle_pos).length := by
    simp
    omega
  have h2 : ((needle.drop st.needle_pos).take ([] : List Char).length).isPrefixOf [] = true := by
    simp
  rw [write_str_caseA_match fail needle repl st [] h1 h2]
  simp

/-- Witness for C10 at the fresh writer with needle `"ab"`. -/
theorem claim10_empty_push_witness :
    initWriter.needle_pos < (['a','b'] : List Char).length ∧
    write_str (noFail Unit) ['a','b'] ['R'] initWriter [] = (initWriter, none) :=
  ⟨by decide, claim10_empty_push Unit (noFail Unit) ['a','b'] ['R'] initWriter (by decide)⟩

/-- C2 fails on the code: with needle `"ab"`, streaming the chunks `"a"`,
`"b"` from a fresh writer completes the needle across the chunk boundary, but
the match branch of `write_str` (src/lib.rs lines 100-102) never resets
`needle_pos`, leaving the reachable state with `needle_pos = 1` and an empty
carry buffer, so the claimed invariant `buffer.len() = needle_pos` is
violated between calls. -/
theorem claim2_invariant_violated :
    (writeChunks (noFail Unit) ['a','b'] ['R'] initWriter [['a'], ['b']]).2 = none ∧
    (writeChunks (noFail Unit) ['a','b'] ['R'] initWriter [['a'], ['b']]).1.needle_pos = 1 ∧
    (writeChunks (noFail Unit) ['a','b'] ['R'] initWriter [['a'], ['b']]).1.buffer = [] ∧
    ¬ ((writeChunks (noFail Unit) ['a','b'] ['R'] initWriter [['a'], ['b']]).1.buffer.length
        = (writeChunks (noFail Unit) ['a','b'] ['R'] initWriter [['a'], ['b']]).1.needle_pos) := by
  decide

/-- C3 fails on the code: with needle `"ab"`, after the push `"a"` the state
is `needle_pos = 1`, buffer `"a"`; the push `"b"` is a Case B match (chunk at
least as long as the remaining needle `"b"` and equal to it).  The carry
buffer is discarded unwritten and the replacement is written exactly once as
claimed, but the filter is not back in the idle state: `needle_pos` stays 1
instead of 0 (src/lib.rs lines 100-102 never reset it). -/
theorem claim3_case_b_leaves_stale_offset :
    (write_str (noFail Unit) ['a','b'] ['R'] initWriter ['a']).1 = ⟨[], 1, ['a']⟩ ∧
    ¬ ((['b'] : List Char).length <
        ((['a','b'] : List Char).drop (⟨[], 1, ['a']⟩ : WState).needle_pos).length) ∧
    ((['a','b'] : List Char).drop (⟨[], 1, ['a']⟩ : WState).needle_pos).isPrefixOf ['b'] = true ∧
    write_str (noFail Unit) ['a','b'] ['R'] (⟨[], 1, ['a']⟩ : WState) ['b']
      = (⟨[['R']], 1, []⟩, none) ∧
    ¬ ((write_str (noFail Unit) ['a','b'] ['R'] (⟨[], 1, ['a']⟩ : WState) ['b']).1.needle_pos = 0) := by
  decide

/-- C5 fails on the code: rendering a haystack whose chunks are `"one"`,
`"!HE"` through the filter with needle `"!HERE!"` ends with the partial
match `"!HE"` still in the carry buffer; `ReplaceDisplay::fmt`
(src/lib.rs lines 46-50) performs no end-of-stream flush, so the sink
receives only `"one"` — the carried bytes are dropped, not emitted
verbatim at the end as the claim requires. -/
theorem claim5_carry_dropped_at_end :
    (replaceDisplayFmt (noFail Unit) ['!','H','E','R','E','!'] ['T']
        [['o','n','e'], ['!','H','E']]).2 = none ∧
    (replaceDisplayFmt (noFail Unit) ['!','H','E','R','E','!'] ['T']
        [['o','n','e'], ['!','H','E']]).1.buffer = ['!','H','E'] ∧
    streamOut ['!','H','E','R','E','!'] ['T'] [['o','n','e'], ['!','H','E']] = ['o','n','e'] ∧
    ¬ (streamOut ['!','H','E','R','E','!'] ['T'] [['o','n','e'], ['!','H','E']]
        = ['o','n','e','!','H','E']) := by
  decide

/-- C8: the three single-shot examples from the spec (and the crate's
`replace_string` test): replacing `"!HERE!"` in `"one!HERE!three"` by
`"two"`, in `"onetwo!HERE!"` by `"three"`, and in `"onetwo!HERE!!HERE!"`
(two adjacent occurrences) by `"three"`. -/
theorem claim8_single_shot_examples :
    singleShotOut ['o','n','e','!','H','E','R','E','!','t','h','r','e','e']
        ['!','H','E','R','E','!'] ['t','w','o']
      = ['o','n','e','t','w','o','t','h','r','e','e'] ∧
    singleShotOut ['o','n','e','t','w','o','!','H','E','R','E','!']
        ['!','H','E','R','E','!'] ['t','h','r','e','e']
      = ['o','n','e','t','w','o','t','h','r','e','e'] ∧
    singleShotOut ['o','n','e','t','w','o','!','H','E','R','E','!','!','H','E','R','E','!']
        ['!','H','E','R','E','!'] ['t','h','r','e','e']
      = ['o','n','e','t','w','o','t','h','r','e','e','t','h','r','e','e'] := by
  decide

/-- C1 fails on the code: the haystack `"one!HERE!three"` contains exactly
one occurrence of the needle `"!HERE!"` (at offset 3), and the partition
`["one!", "HERE!three"]` into non-empty chunks splits that occurrence, yet
streaming the chunks through `ReplaceWriter::write_str` emits the haystack
verbatim (the writer only ever compares the remaining needle against the
chunk's leading bytes, so an occurrence not aligned with a chunk start is
never found), while the single-shot `ReplacedString` render yields
`"onetwothree"`. -/
theorem claim1_boundary_split_counterexample :
    ([['o','n','e','!'], ['H','E','R','E','!','t','h','r','e','e']] : List (List Char)).flatten
      = ['o','n','e','!','H','E','R','E','!','t','h','r','e','e'] ∧
    (∀ i, i < 14 →
      (['!','H','E','R','E','!'] : List Char).isPrefixOf
          ((['o','n','e','!','H','E','R','E','!','t','h','r','e','e'] : List Char).drop i) = true
        → i = 3) ∧
    ¬ (streamOut ['!','H','E','R','E','!'] ['t','w','o']
          [['o','n','e','!'], ['H','E','R','E','!','t','h','r','e','e']]
        = singleShotOut ['o','n','e','!','H','E','R','E','!','t','h','r','e','e']
            ['!','H','E','R','E','!'] ['t','w','o']) := by
  decide

/-- C6: rendering a `ReplacedString` performs exactly the spec's loop: for a
searcher whose steps partition the haystack left to right (ending in
`Done`), the code's stateful loop succeeds and the sink receives, in order,
`haystack[start..end]` for each `Reject(start, end)` step and the rendered
replacement for each `Match` step — i.e. exactly the spec-level rendering
`renderSteps`. -/
theorem claim6_replaced_string_loop (hay repl : List Char) (steps : List SearchStep)
    (hchain : validChain hay.length 0 steps = true) :
    (replacedFmt (noFail Unit) hay repl steps []).2 = none ∧
    ((replacedFmt (noFail Unit) hay repl steps []).1).flatten = renderSteps hay repl steps := by
  rw [replacedFmt_noFail]
  refine ⟨rfl, ?_⟩
  rw [renderSteps_eq_flatten]
  simp

/-- Witness for C6 on the haystack `"abcd"` with the valid step sequence
`Reject(0,2), Match(2,4)`. -/
theorem claim6_replaced_string_loop_witness :
    validChain (['a','b','c','d'] : List Char).length 0
        [SearchStep.Reject 0 2, SearchStep.Match 2 4] = true ∧
    ((replacedFmt (noFail Unit) ['a','b','c','d'] ['R']
        [SearchStep.Reject 0 2, SearchStep.Match 2 4] []).2 = none ∧
      ((replacedFmt (noFail Unit) ['a','b','c','d'] ['R']
          [SearchStep.Reject 0 2, SearchStep.Match 2 4] []).1).flatten
        = renderSteps ['a','b','c','d'] ['R'] [SearchStep.Reject 0 2, SearchStep.Match 2 4]) :=
  ⟨by decide, claim6_replaced_string_loop ['a','b','c','d'] ['R']
    [SearchStep.Reject 0 2, SearchStep.Match 2 4] (by decide)⟩

/-- C7: if the needle does not occur anywhere in the haystack, the lazy
single-shot replacement renders exactly the haystack, whatever the
replacement. -/
theorem claim7_no_occurrence_noop (t needle repl : List Char)
    (h : ∀ i, i < t.length → needle.isPrefixOf (t.drop i) = false) :
    singleShotOut t needle repl = t := by
  cases t with
  | nil => rfl
  | cons c ts =>
    have hne : needle ≠ [] := by
      intro hcontra
      have h0 := h 0 (by simp)
      rw [hcontra] at h0
      simp at h0
    have hall : ∀ i, needle.isPrefixOf ((c :: ts).drop i) = false := by
      intro i
      by_cases hi : i < (c :: ts).length
      · exact h i hi
      · rw [List.drop_eq_nil_of_le (by omega)]
        exact isPrefixOf_nil_right hne
    rw [singleShotOut_eq_renderSteps, searchSteps,
      stepsAux_noMatchAll needle (c :: ts) 0 0 hall, if_neg (by simp)]
    simp [renderSteps, sliceAt]

/-- Witness for C7: `"x"` does not occur in `"ab"`. -/
theorem claim7_no_occurrence_noop_witness :
    (∀ i, i < (['a','b'] : List Char).length →
      (['x'] : List Char).isPrefixOf ((['a','b'] : List Char).drop i) = false) ∧
    singleShotOut ['a','b'] ['x'] ['R'] = ['a','b'] :=
  ⟨by decide, claim7_no_occurrence_noop ['a','b'] ['x'] ['R'] (by decide)⟩

/-- C1, amended: streaming matches the single-shot render for partitions
aligned with the unique occurrence.  If the haystack is
`pre ++ needle ++ post` with its only needle occurrence at offset
`pre.length`, the chunks before the occurrence pass through the filter
verbatim and leave it idle, the occurrence itself arrives as one chunk equal
to the needle, and the chunks after it pass through verbatim as well (no
carried partial match pending at end of stream), then pushing the chunks
through `ReplaceWriter::write_str` produces the same sink output as the
single-shot `ReplacedString` render of the whole haystack. -/
theorem claim1_aligned_partition_streams_like_single_shot
    (needle repl pre post : List Char) (preCs postCs : List (List Char))
    (hne : needle ≠ [])
    (hpreJ : preCs.flatten = pre)
    (hpostJ : postCs.flatten = post)
    (hpre1 : (writeChunks (noFail Unit) needle repl initWriter preCs).1.needle_pos = 0)
    (hpre2 : (writeChunks (noFail Unit) needle repl initWriter preCs).1.buffer = [])
    (hpre3 : ((writeChunks (noFail Unit) needle repl initWriter preCs).1.log).flatten = pre)
    (hpost3 : ((writeChunks (noFail Unit) needle repl initWriter postCs).1.log).flatten = post)
    (hu : ∀ i, i < (pre ++ needle ++ post).length →
        needle.isPrefixOf ((pre ++ needle ++ post).drop i) = true → i = pre.length) :
    streamOut needle repl (preCs ++ [needle] ++ postCs)
      = singleShotOut (pre ++ needle ++ post) needle repl := by
  have huu : ∀ i, needle.isPrefixOf ((pre ++ needle ++ post).drop i) = true → i = pre.length := by
    intro i hb
    by_cases hi : i < (pre ++ needle ++ post).length
    · exact hu i hi hb
    · exfalso
      rw [List.drop_eq_nil_of_le (by omega), isPrefixOf_nil_right hne] at hb
      exact Bool.noConfusion hb
  rw [singleShot_unique needle repl pre post hne huu]
  rw [streamOut, replaceDisplayFmt, writeChunks_append_noFail, writeChunks_append_noFail]
  have hst1 : (writeChunks (noFail Unit) needle repl initWriter preCs).1
      = ⟨(writeChunks (noFail Unit) needle repl initWriter preCs).1.log, 0, []⟩ := by
    rw [WState_eta ((writeChunks (noFail Unit) needle repl initWriter preCs).1), hpre1, hpre2]
  rw [hst1, writeChunks_needle_from_idle]
  have hmid : ((⟨(writeChunks (noFail Unit) needle repl initWriter preCs).1.log ++ [repl], 0, []⟩ :
        WState), (none : Option Unit)).1
      = withLog ((writeChunks (noFail Unit) needle repl initWriter preCs).1.log ++ [repl])
          initWriter := by
    simp [withLog, initWriter]
  rw [hmid, writeChunks_withLog]
  simp only [withLog]
  rw [List.flatten_append, List.flatten_append, hpre3, hpost3]
  simp

/-- Witness for the amended C1: haystack `"zabw"`, needle `"ab"`, replacement
`"XY"`, chunks `["z", "ab", "w"]`. -/
theorem claim1_aligned_partition_witness :
    (['a','b'] : List Char) ≠ [] ∧
    ([['z']] : List (List Char)).flatten = ['z'] ∧
    ([['w']] : List (List Char)).flatten = ['w'] ∧
    (writeChunks (noFail Unit) ['a','b'] ['X','Y'] initWriter [['z']]).1.needle_pos = 0 ∧
    (writeChunks (noFail Unit) ['a','b'] ['X','Y'] initWriter [['z']]).1.buffer = [] ∧
    ((writeChunks (noFail Unit) ['a','b'] ['X','Y'] initWriter [['z']]).1.log).flatten = ['z'] ∧
    ((writeChunks (noFail Unit) ['a','b'] ['X','Y'] initWriter [['w']]).1.log).flatten = ['w'] ∧
    (∀ i, i < ((['z'] ++ ['a','b'] ++ ['w'] : List Char)).length →
      (['a','b'] : List Char).isPrefixOf ((['z'] ++ ['a','b'] ++ ['w'] : List Char).drop i) = true
        → i = (['z'] : List Char).length) ∧
    streamOut ['a','b'] ['X','Y'] ([['z']] ++ [['a','b']] ++ [['w']])
      = singleShotOut (['z'] ++ ['a','b'] ++ ['w']) ['a','b'] ['X','Y'] :=
  ⟨by decide, by decide, by decide, by decide, by decide, by decide, by decide, by decide,
    claim1_aligned_partition_streams_like_single_shot ['a','b'] ['X','Y'] ['z'] ['w']
      [['z']] [['w']] (by decide) (by decide) (by decide) (by decide) (by decide)
      (by decide) (by decide) (by decide)⟩

/-! ### Error propagation facts -/

theorem flushForward_err {ε : Type} {fail : List (List Char) → List Char → Option ε}
    {st : WState} {s : List Char} {e : ε}
    (h : (flushForward fail st s).2 = some e) : ∃ lg c, fail lg c = some e := by
  unfold flushForward at h
  cases h1 : writeS fail st.log st.buffer with
  | mk log1 o1 =>
    rw [h1] at h
    cases o1 with
    | some e1 =>
      simp only at h
      cases h
      exact ⟨st.log, st.buffer, writeS_err (by rw [h1])⟩
    | none =>
      simp only at h
      cases h2 : writeS fail log1 s with
      | mk log2 o2 =>
        rw [h2] at h
        simp only at h
        subst h
        exact ⟨log1, s, writeS_err (by rw [h2])⟩

theorem flushForward_log {ε : Type} (fail : List (List Char) → List Char → Option ε)
    (st : WState) (s : List Char) :
    ∃ t, (flushForward fail st s).1.log = st.log ++ t := by
  obtain ⟨t1, ht1⟩ := writeS_log fail st.log st.buffer
  cases h1 : writeS fail st.log st.buffer with
  | mk log1 o1 =>
    rw [h1] at ht1
    simp only at ht1
    cases o1 with
    | some e1 =>
      refine ⟨t1, ?_⟩
      unfold flushForward
      rw [h1]
      simpa using ht1
    | none =>
      obtain ⟨t2, ht2⟩ := writeS_log fail log1 s
      cases h2 : writeS fail log1 s with
      | mk log2 o2 =>
        rw [h2] at ht2
        simp only at ht2
        refine ⟨t1 ++ t2, ?_⟩
        unfold flushForward
        rw [h1]
        simp only
        rw [h2]
        simp [ht1, ht2]

theorem write_str_err {ε : Type} {fail : List (List Char) → List Char → Option ε}
    {needle repl s : List Char} {st : WState} {e : ε}
    (h : (write_str fail needle repl st s).2 = some e) : ∃ lg c, fail lg c = some e := by
  by_cases h1 : s.length < (needle.drop st.needle_pos).length
  · by_cases h2 : ((needle.drop st.needle_pos).take s.length).isPrefixOf s = true
    · rw [write_str_caseA_match fail needle repl st s h1 h2] at h
      simp at h
    · rw [write_str_caseA_miss fail needle repl st s h1 h2] at h
      exact flushForward_err h
  · by_cases h2 : (needle.drop st.needle_pos).isPrefixOf s = true
    · rw [write_str_caseB_match fail needle repl st s h1 h2] at h
      exact ⟨st.log, repl, writeS_err h⟩
    · rw [write_str_caseB_miss fail needle repl st s h1 h2] at h
      exact flushForward_err h

theorem write_str_log {ε : Type} (fail : List (List Char) → List Char → Option ε)
    (needle repl s : List Char) (st : WState) :
    ∃ t, (write_str fail needle repl st s).1.log = st.log ++ t := by
  by_cases h1 : s.length < (needle.drop st.needle_pos).length
  · by_cases h2 : ((needle.drop st.needle_pos).take s.length).isPrefixOf s = true
    · rw [write_str_caseA_match fail needle repl st s h1 h2]
      exact ⟨[], by simp⟩
    · rw [write_str_caseA_miss fail needle repl st s h1 h2]
      exact flushForward_log fail st s
  · by_cases h2 : (needle.drop st.needle_pos).isPrefixOf s = true
    · rw [write_str_caseB_match fail needle repl st s h1 h2]
      obtain ⟨t, ht⟩ := writeS_log fail st.log repl
      exact ⟨t, by simpa using ht⟩
    · rw [write_str_caseB_miss fail needle repl st s h1 h2]
      exact flushForward_log fail st s

theorem writeChunks_abort {ε : Type} (fail : List (List Char) → List Char → Option ε)
    (needle repl s : List Char) (st : WState) (rest : List (List Char)) (e : ε)
    (h : (write_str fail needle repl st s).2 = some e) :
    writeChunks fail needle repl st (s :: rest) = ((write_str fail needle repl st s).1, some e) := by
  simp only [writeChunks]
  cases hw : write_str fail needle repl st s with
  | mk st1 o1 =>
    rw [hw] at h
    simp only at h
    subst h
    rfl

theorem replacedFmt_err {ε : Type} {fail : List (List Char) → List Char → Option ε}
    (hay repl : List Char) :
    ∀ (steps : List SearchStep) (log : List (List Char)) (e : ε),
      (replacedFmt fail hay repl steps log).2 = some e → ∃ lg c, fail lg c = some e := by
  intro steps
  induction steps with
  | nil =>
    intro log e h
    simp [replacedFmt] at h
  | cons step rest ih =>
    intro log e h
    cases step with
    | Match a b =>
      simp only [replacedFmt] at h
      cases hw : writeS fail log repl with
      | mk log1 o1 =>
        rw [hw] at h
        cases o1 with
        | some e1 =>
          simp only at h
          cases h
          exact ⟨log, repl, writeS_err (by rw [hw])⟩
        | none => exact ih log1 e h
    | Reject a b =>
      simp only [replacedFmt] at h
      cases hw : writeS fail log (sliceAt hay a b) with
      | mk log1 o1 =>
        rw [hw] at h
        cases o1 with
        | some e1 =>
          simp only at h
          cases h
          exact ⟨log, sliceAt hay a b, writeS_err (by rw [hw])⟩
        | none => exact ih log1 e h

theorem replacedFmt_log {ε : Type} (fail : List (List Char) → List Char → Option ε)
    (hay repl : List Char) :
    ∀ (steps : List SearchStep) (log : List (List Char)),
      ∃ t, (replacedFmt fail hay repl steps log).1 = log ++ t := by
  intro steps
  induction steps with
  | nil =>
    intro log
    exact ⟨[], by simp [replacedFmt]⟩
  | cons step rest ih =>
    intro log
    cases step with
    | Match a b =>
      simp only [replacedFmt]
      obtain ⟨t1, ht1⟩ := writeS_log fail log repl
      cases hw : writeS fail log repl with
      | mk log1 o1 =>
        rw [hw] at ht1
        simp only at ht1
        cases o1 with
        | some e1 => exact ⟨t1, ht1⟩
        | none =>
          obtain ⟨t2, ht2⟩ := ih log1
          exact ⟨t1 ++ t2, by rw [ht2, ht1, List.append_assoc]⟩
    | Reject a b =>
      simp only [replacedFmt]
      obtain ⟨t1, ht1⟩ := writeS_log fail log (sliceAt hay a b)
      cases hw : writeS fail log (sliceAt hay a b) with
      | mk log1 o1 =>
        rw [hw] at ht1
        simp only at ht1
        cases o1 with
        | some e1 => exact ⟨t1, ht1⟩
        | none =>
          obtain ⟨t2, ht2⟩ := ih log1
          exact ⟨t1 ++ t2, by rw [ht2, ht1, List.append_assoc]⟩

theorem replacedFmt_abort {ε : Type} (fail : List (List Char) → List Char → Option ε)
    (hay repl : List Char) (step : SearchStep) (steps : List SearchStep)
    (log : List (List Char)) (e : ε)
    (h : (writeS fail log (stepChunk hay repl step)).2 = some e) :
    replacedFmt fail hay repl (step :: steps) log = (log, some e) := by
  have hf : fail log (stepChunk hay repl step) = some e := writeS_err h
  have hS : writeS fail log (stepChunk hay repl step) = (log, some e) := by
    unfold writeS
    rw [hf]
  cases step with
  | Match a b =>
    simp only [replacedFmt]
    rw [show (stepChunk hay repl (SearchStep.Match a b)) = repl from rfl] at hS
    rw [hS]
  | Reject a b =>
    simp only [replacedFmt]
    rw [show (stepChunk hay repl (SearchStep.Reject a b)) = sliceAt hay a b from rfl] at hS
    rw [hS]

/-- C9: both rendering paths fail exactly when the downstream sink fails.
For the streaming filter (`write_str` / the chunk loop) and the single-shot
loop (`replacedFmt`): an infallible sink never yields an error; any reported
error is exactly an error the sink's fault model produced (propagated
unchanged); the first erroring push aborts the remainder of the chunk list,
and a step whose sink write fails aborts the single-shot loop immediately
with no further writes; and previously written output is never undone — the
sink's received log only ever grows. -/
theorem claim9_sink_error_propagation :
    (∀ (ε : Type) (fail : List (List Char) → List Char → Option ε)
        (needle repl s : List Char) (st : WState) (e : ε),
      (write_str fail needle repl st s).2 = some e → ∃ lg c, fail lg c = some e) ∧
    (∀ (ε : Type) (needle repl s : List Char) (st : WState),
      (write_str (noFail ε) needle repl st s).2 = none) ∧
    (∀ (ε : Type) (fail : List (List Char) → List Char → Option ε)
        (needle repl s : List Char) (st : WState) (e : ε) (rest : List (List Char)),
      (write_str fail needle repl st s).2 = some e →
      writeChunks fail needle repl st (s :: rest) = ((write_str fail needle repl st s).1, some e)) ∧
    (∀ (ε : Type) (fail : List (List Char) → List Char → Option ε)
        (needle repl s : List Char) (st : WState),
      ∃ t, (write_str fail needle repl st s).1.log = st.log ++ t) ∧
    (∀ (ε : Type) (fail : List (List Char) → List Char → Option ε)
        (hay repl : List Char) (steps : List SearchStep) (log : List (List Char)) (e : ε),
      (replacedFmt fail hay repl steps log).2 = some e → ∃ lg c, fail lg c = some e) ∧
    (∀ (ε : Type) (hay repl : List Char) (steps : List SearchStep) (log : List (List Char)),
      (replacedFmt (noFail ε) hay repl steps log).2 = none) ∧
    (∀ (ε : Type) (fail : List (List Char) → List Char → Option ε)
        (hay repl : List Char) (step : SearchStep) (steps : List SearchStep)
        (log : List (List Char)) (e : ε),
      (writeS fail log (stepChunk hay repl step)).2 = some e →
      replacedFmt fail hay repl (step :: steps) log = (log, some e)) ∧
    (∀ (ε : Type) (fail : List (List Char) → List Char → Option ε)
        (hay repl : List Char) (steps : List SearchStep) (log : List (List Char)),
      ∃ t, (replacedFmt fail hay repl steps log).1 = log ++ t) := by
  refine ⟨?_, ?_, ?_, ?_, ?_, ?_, ?_, ?_⟩
  · intro ε fail needle repl s st e h
    exact write_str_err h
  · intro ε needle repl s st
    exact write_str_noFail_ok needle repl st s
  · intro ε fail needle repl s st e rest h
    exact writeChunks_abort fail needle repl s st rest e h
  · intro ε fail needle repl s st
    exact write_str_log fail needle repl s st
  · intro ε fail hay repl steps log e h
    exact replacedFmt_err hay repl steps log e h
  · intro ε hay repl steps log
    rw [replacedFmt_noFail]
  · intro ε fail hay repl step steps log e h
    exact replacedFmt_abort fail hay repl step steps log e h
  · intro ε fail hay repl steps log
    exact replacedFmt_log fail hay repl steps log

/-- Witness for C9 with the sink that rejects every chunk with error `0`
(and the infallible sink for the no-error parts). -/
theorem claim9_sink_error_propagation_witness :
    (∃ lg c, (fun (_ : List (List Char)) (_ : List Char) => some (0 : Nat)) lg c = some 0) ∧
    (write_str (noFail Nat) ['a'] ['R'] initWriter ['x']).2 = none ∧
    writeChunks (fun (_ : List (List Char)) (_ : List Char) => some (0 : Nat)) ['a'] ['R']
        initWriter [['x'], ['y']]
      = ((write_str (fun (_ : List (List Char)) (_ : List Char) => some (0 : Nat)) ['a'] ['R']
          initWriter ['x']).1, some 0) ∧
    (∃ t, (write_str (fun (_ : List (List Char)) (_ : List Char) => some (0 : Nat)) ['a'] ['R']
        initWriter ['x']).1.log = initWriter.log ++ t) ∧
    (∃ lg c, (fun (_ : List (List Char)) (_ : List Char) => some (1 : Nat)) lg c = some 1) ∧
    (replacedFmt (noFail Nat) ['z'] ['R'] [SearchStep.Reject 0 1] []).2 = none ∧
    replacedFmt (fun (_ : List (List Char)) (_ : List Char) => some (0 : Nat)) ['z'] ['R']
        [SearchStep.Match 0 1] [] = ([], some 0) ∧
    (∃ t, (replacedFmt (fun (_ : List (List Char)) (_ : List Char) => some (0 : Nat)) ['z'] ['R']
        [SearchStep.Reject 0 1] []).1 = [] ++ t) :=
  ⟨claim9_sink_error_propagation.1 Nat (fun _ _ => some 0) ['a'] ['R'] ['x'] initWriter 0
      (by decide),
    claim9_sink_error_propagation.2.1 Nat ['a'] ['R'] ['x'] initWriter,
    claim9_sink_error_propagation.2.2.1 Nat (fun _ _ => some 0) ['a'] ['R'] ['x'] initWriter 0
      [['y']] (by decide),
    claim9_sink_error_propagation.2.2.2.1 Nat (fun _ _ => some 0) ['a'] ['R'] ['x'] initWriter,
    claim9_sink_error_propagation.2.2.2.2.1 Nat (fun _ _ => some 1) ['z'] ['R']
      [SearchStep.Reject 0 1] [] 1 (by decide),
    claim9_sink_error_propagation.2.2.2.2.2.1 Nat ['z'] ['R'] [SearchStep.Reject 0 1] [],
    claim9_sink_error_propagation.2.2.2.2.2.2.1 Nat (fun _ _ => some 0) ['z'] ['R']
      (SearchStep.Match 0 1) [] [] 0 (by decide),
    claim9_sink_error_propagation.2.2.2.2.2.2.2 Nat (fun _ _ => some 0) ['z'] ['R']
      [SearchStep.Reject 0 1] []⟩
